import Mathlib

/-!
Verification of the Zabbix inventory manager (`inventory.py`) against its
natural-language specification.  The Python functions are shallowly embedded:
strings are Lean `String`s, the pandas cell cleaning is modelled on the cell
values, the mutable counter / hostname registry become explicit state passing,
and the remote JSON-RPC calls become an oracle recording each call's outcome.
-/

/-- Python `str.strip()`: drop leading and trailing whitespace
(translated as `dropWhile` on both ends of the character list). -/
def pyStrip (s : String) : String :=
  ⟨((s.data.dropWhile Char.isWhitespace).reverse.dropWhile Char.isWhitespace).reverse⟩

/-- Python `s[-n:]`: the last `n` characters of `s`, the whole string when
`s` is shorter than `n`. -/
def lastN (n : Nat) (s : String) : String :=
  ⟨s.data.drop (s.data.length - n)⟩

/-- Python `str.zfill(w)` on an unsigned digit string: left-pad with `'0'`
to width `w` (no padding when the string is already at least that long). -/
def zfill (w : Nat) (s : String) : String :=
  ⟨List.replicate (w - s.data.length) '0' ++ s.data⟩

/-- Helper for Python `str.split()` (no separator): accumulate the current
word (reversed) and split on runs of whitespace, producing no empty words. -/
def pyWords : List Char → List Char → List (List Char)
  | [], cur => if cur.isEmpty then [] else [cur.reverse]
  | c :: cs, cur =>
    if c.isWhitespace then
      if cur.isEmpty then pyWords cs [] else cur.reverse :: pyWords cs []
    else pyWords cs (c :: cur)

/-- Python `' '.join(words)`. -/
def joinWords : List (List Char) → List Char
  | [] => []
  | [w] => w
  | w :: ws => w ++ ' ' :: joinWords ws

/-- `clean_value` from `read_inventory_csv` (inventory.py lines 133-139):
`' '.join(str(value).split())`, i.e. collapse all whitespace runs to single
spaces and trim the ends; a missing (NaN) cell is modelled as `""`. -/
def clean_value (s : String) : String :=
  ⟨joinWords (pyWords s.data [])⟩

/-- `ZabbixInventoryManager.generate_identifier` (inventory.py lines 302-312).
The mutable `self.counter` is passed in and returned explicitly. -/
def generate_identifier (serial mac : String) (counter : Nat) : String × Nat :=
  if serial ≠ "" ∧ serial ≠ "UNKNOWN" then
    ("SN" ++ lastN 4 (pyStrip serial), counter)
  else if mac ≠ "" ∧ mac ≠ "UNKNOWN" then
    ("MC" ++ lastN 4 (pyStrip mac), counter)
  else
    ("DEV" ++ zfill 4 (Nat.repr counter), counter + 1)

/-! ### Decimal representation facts

`Nat.repr` is defined through the fuelled `Nat.toDigitsCore`.  `natDigs` is a
fuel-free restatement used to reason about the digit strings appearing in
`DEV` identifiers and hostname suffixes. -/

/-- Fuel-free decimal digit list of a natural number. -/
def natDigs (n : Nat) : List Char :=
  if n < 10 then [Nat.digitChar n]
  else natDigs (n / 10) ++ [Nat.digitChar (n % 10)]
termination_by n
decreasing_by exact Nat.div_lt_self (by omega) (by omega)

theorem toDigitsCore_eq_natDigs (fuel : Nat) :
    ∀ n acc, n < fuel → Nat.toDigitsCore 10 fuel n acc = natDigs n ++ acc := by
  induction fuel with
  | zero => intro n acc h; omega
  | succ f ih =>
    intro n acc h
    rw [Nat.toDigitsCore]
    by_cases h10 : n / 10 = 0
    · have hn10 : n < 10 := by omega
      rw [if_pos h10, natDigs, if_pos hn10, Nat.mod_eq_of_lt hn10]
      rfl
    · have hge : 10 ≤ n := by omega
      have hlt : n / 10 < n := Nat.div_lt_self (by omega) (by omega)
      have hnd : natDigs n = natDigs (n / 10) ++ [Nat.digitChar (n % 10)] := by
        rw [natDigs]
        rw [if_neg (by omega)]
      rw [if_neg h10, ih (n / 10) _ (by omega), hnd, List.append_assoc]
      rfl

theorem repr_data (n : Nat) : (Nat.repr n).data = natDigs n := by
  show ((Nat.toDigits 10 n).asString).data = natDigs n
  rw [Nat.toDigits, toDigitsCore_eq_natDigs (n + 1) n [] (Nat.lt_succ_self n)]
  simp [List.asString]

theorem digitChar_ne_dash : ∀ m, m < 10 → Nat.digitChar m ≠ '-' := by decide

theorem digitChar_ne_zero : ∀ m, m < 10 → 1 ≤ m → Nat.digitChar m ≠ '0' := by
  decide

theorem digitChar_toNat : ∀ m, m < 10 → (Nat.digitChar m).toNat = m + 48 := by
  decide

theorem natDigs_ne_dash (n : Nat) : ∀ c ∈ natDigs n, c ≠ '-' := by
  induction n using Nat.strong_induction_on with
  | _ n ih =>
    rw [natDigs]
    by_cases h : n < 10
    · rw [if_pos h]
      intro c hc
      rw [List.mem_singleton] at hc
      subst hc
      exact digitChar_ne_dash n h
    · rw [if_neg h]
      intro c hc
      rcases List.mem_append.mp hc with hc | hc
      · exact ih (n / 10) (Nat.div_lt_self (by omega) (by omega)) c hc
      · rw [List.mem_singleton] at hc
        subst hc
        exact digitChar_ne_dash (n % 10) (Nat.mod_lt n (by omega))

theorem natDigs_ne_nil (n : Nat) : natDigs n ≠ [] := by
  rw [natDigs]
  by_cases h : n < 10
  · rw [if_pos h]; simp
  · rw [if_neg h]; simp

theorem natDigs_head_ne_zero (n : Nat) (hn : 1 ≤ n) :
    (natDigs n).head? ≠ some '0' := by
  induction n using Nat.strong_induction_on with
  | _ n ih =>
    rw [natDigs]
    by_cases h : n < 10
    · rw [if_pos h]
      simp only [List.head?_cons]
      intro hc
      exact digitChar_ne_zero n h hn (Option.some.inj hc)
    · rw [if_neg h]
      obtain ⟨a, t, ht⟩ := List.exists_cons_of_ne_nil (natDigs_ne_nil (n / 10))
      have hih := ih (n / 10) (Nat.div_lt_self (by omega) (by omega))
        (by omega)
      rw [ht] at hih ⊢
      simpa using hih

theorem foldl_natDigs (n : Nat) :
    ∀ a, (natDigs n).foldl (fun x c => x * 10 + (c.toNat - 48)) a
      = a * 10 ^ (natDigs n).length + n := by
  induction n using Nat.strong_induction_on with
  | _ n ih =>
    intro a
    rw [natDigs]
    by_cases h : n < 10
    · rw [if_pos h]
      simp [List.foldl, digitChar_toNat n h]
    · rw [if_neg h]
      rw [List.foldl_append, ih (n / 10) (Nat.div_lt_self (by omega) (by omega)) a]
      have hm := digitChar_toNat (n % 10) (Nat.mod_lt n (by omega))
      simp only [List.foldl, List.length_append, List.length_singleton, hm]
      have hd : 10 * (n / 10) + n % 10 = n := Nat.div_add_mod n 10
      set L := (natDigs (n / 10)).length with hL
      calc (a * 10 ^ L + n / 10) * 10 + (n % 10 + 48 - 48)
          = a * (10 ^ L * 10) + (10 * (n / 10) + n % 10) := by ring_nf; omega
        _ = a * 10 ^ (L + 1) + n := by rw [pow_succ, hd]

theorem natDigs_inj (m n : Nat) (h : natDigs m = natDigs n) : m = n := by
  have hm := foldl_natDigs m 0
  have hn := foldl_natDigs n 0
  rw [h] at hm
  rw [hm] at hn
  omega

theorem sdata_app (s t : String) : (s ++ t).data = s.data ++ t.data := rfl

theorem str_ext (s t : String) (h : s.data = t.data) : s = t :=
  congrArg String.mk h

theorem replicate_zero_append_inj (p : Nat) :
    ∀ (q : Nat) (d1 d2 : List Char), d1.head? ≠ some '0' → d2.head? ≠ some '0' →
      List.replicate p '0' ++ d1 = List.replicate q '0' ++ d2 → d1 = d2 := by
  induction p with
  | zero =>
    intro q d1 d2 h1 h2 h
    cases q with
    | zero => simpa using h
    | succ q =>
      exfalso
      apply h1
      rw [List.replicate_succ] at h
      simp only [List.replicate, List.nil_append] at h
      rw [h]
      simp
  | succ p ih =>
    intro q d1 d2 h1 h2 h
    cases q with
    | zero =>
      exfalso
      apply h2
      rw [List.replicate_succ] at h
      simp only [List.replicate, List.nil_append] at h
      rw [← h]
      simp
    | succ q =>
      rw [List.replicate_succ, List.replicate_succ] at h
      simp only [List.cons_append, List.cons.injEq] at h
      exact ih q d1 d2 h1 h2 h.2

theorem dash_split (a : List Char) :
    ∀ (b m n : List Char), (∀ c ∈ m, c ≠ '-') → (∀ c ∈ n, c ≠ '-') →
      a ++ '-' :: m = b ++ '-' :: n → a = b ∧ m = n := by
  induction a with
  | nil =>
    intro b m n hm hn h
    cases b with
    | nil => simpa using h
    | cons x xs =>
      simp only [List.nil_append, List.cons_append, List.cons.injEq] at h
      exfalso
      exact hm '-' (by rw [h.2]; simp) rfl
  | cons x xs ih =>
    intro b m n hm hn h
    cases b with
    | nil =>
      simp only [List.nil_append, List.cons_append, List.cons.injEq] at h
      exfalso
      exact hn '-' (by rw [← h.2]; simp) rfl
    | cons y ys =>
      simp only [List.cons_append, List.cons.injEq] at h
      obtain ⟨hxy, h'⟩ := h
      obtain ⟨hab, hmn⟩ := ih ys m n hm hn h'
      exact ⟨by rw [hxy, hab], hmn⟩

/-- Splitting a hostname of the shape `base ++ "-" ++ digits` is unambiguous:
the digit block after the final dash determines both parts. -/
theorem string_dash_repr_inj (x y : String) (m n : Nat)
    (h : x ++ "-" ++ Nat.repr m = y ++ "-" ++ Nat.repr n) : x = y ∧ m = n := by
  have hd : x.data ++ '-' :: (natDigs m) = y.data ++ '-' :: (natDigs n) := by
    have h2 := congrArg String.data h
    rw [sdata_app, sdata_app, sdata_app, sdata_app, repr_data, repr_data] at h2
    simpa using h2
  obtain ⟨h1, h2⟩ := dash_split x.data y.data (natDigs m) (natDigs n)
    (natDigs_ne_dash m) (natDigs_ne_dash n) hd
  exact ⟨str_ext x y h1, natDigs_inj m n h2⟩

/-- Distinct positive counter values give distinct `DEV` identifiers. -/
theorem devId_inj (a b : Nat) (ha : 1 ≤ a) (hb : 1 ≤ b) (hne : a ≠ b) :
    "DEV" ++ zfill 4 (Nat.repr a) ≠ "DEV" ++ zfill 4 (Nat.repr b) := by
  intro h
  have hd := congrArg String.data h
  rw [sdata_app, sdata_app] at hd
  have hz : (zfill 4 (Nat.repr a)).data = (zfill 4 (Nat.repr b)).data :=
    List.append_cancel_left hd
  simp only [zfill, repr_data] at hz
  have := replicate_zero_append_inj (4 - (natDigs a).length) (4 - (natDigs b).length)
    (natDigs a) (natDigs b) (natDigs_head_ne_zero a ha) (natDigs_head_ne_zero b hb) hz
  exact hne (natDigs_inj a b this)

/-! ### Hostname allocator

`ZabbixInventoryManager.generate_unique_hostname` (inventory.py lines 81-89).
The `self.hostname_counters` dict becomes a function `String → Option Nat`
(`none` = key absent). -/

def AllocSt : Type := String → Option Nat

def emptyAlloc : AllocSt := fun _ => none

def generate_unique_hostname (counters : AllocSt) (base : String) :
    String × AllocSt :=
  match counters base with
  | none => (base, fun b => if b = base then some 1 else counters b)
  | some count =>
      (base ++ "-" ++ Nat.repr count,
       fun b => if b = base then some (count + 1) else counters b)

/-- One run of the allocator over a list of base-hostname requests
(the loop in `main` calling `generate_unique_hostname` once per record). -/
def runAlloc : AllocSt → List String → List String × AllocSt
  | st, [] => ([], st)
  | st, b :: bs =>
    let p := generate_unique_hostname st b
    let q := runAlloc p.2 bs
    (p.1 :: q.1, q.2)

/-- The hostnames returned by one run from the fresh registry. -/
def outs (bases : List String) : List String :=
  (runAlloc emptyAlloc bases).1

/-- Registry state after the requests in `pre`: each base maps to the number
of times it was requested (absent when never requested). -/
def stOf (pre : List String) : AllocSt :=
  fun b => if pre.count b = 0 then none else some (pre.count b)

/-- The hostname the allocator hands out for `b` after the requests in `pre`. -/
def outOf (pre : List String) (b : String) : String :=
  if pre.count b = 0 then b else b ++ "-" ++ Nat.repr (pre.count b)

/-- The outputs of a run, request by request. -/
def expOuts : List String → List String → List String
  | _, [] => []
  | pre, b :: bs => outOf pre b :: expOuts (pre ++ [b]) bs

theorem emptyAlloc_eq_stOf_nil : emptyAlloc = stOf [] := by
  funext b
  simp [emptyAlloc, stOf]

theorem gen_hostname_stOf (pre : List String) (b : String) :
    generate_unique_hostname (stOf pre) b = (outOf pre b, stOf (pre ++ [b])) := by
  unfold generate_unique_hostname outOf
  by_cases h : pre.count b = 0
  · rw [show stOf pre b = none from by simp [stOf, h], if_pos h]
    refine Prod.ext rfl ?_
    funext b'
    by_cases hb : b' = b
    · subst hb
      simp [stOf, h]
    · simp only [if_neg hb, stOf, List.count_append]
      have : List.count b' [b] = 0 := by
        simp [List.count_singleton]
        exact fun hc => absurd hc.symm hb
      rw [this, Nat.add_zero]
  · rw [show stOf pre b = some (pre.count b) from by simp [stOf, h], if_neg h]
    refine Prod.ext rfl ?_
    funext b'
    by_cases hb : b' = b
    · subst hb
      simp [stOf, List.count_append, h, List.count_singleton]
    · simp only [if_neg hb, stOf, List.count_append]
      have : List.count b' [b] = 0 := by
        simp [List.count_singleton]
        exact fun hc => absurd hc.symm hb
      rw [this, Nat.add_zero]

theorem runAlloc_stOf (bases : List String) :
    ∀ pre, runAlloc (stOf pre) bases = (expOuts pre bases, stOf (pre ++ bases)) := by
  induction bases with
  | nil => intro pre; simp [runAlloc, expOuts]
  | cons b bs ih =>
    intro pre
    rw [runAlloc, expOuts]
    simp only [gen_hostname_stOf, ih (pre ++ [b]), List.append_assoc,
      List.singleton_append]

theorem outs_eq_expOuts (bases : List String) : outs bases = expOuts [] bases := by
  rw [outs, emptyAlloc_eq_stOf_nil, runAlloc_stOf bases []]

theorem expOuts_length (bases : List String) :
    ∀ pre, (expOuts pre bases).length = bases.length := by
  induction bases with
  | nil => intro pre; rfl
  | cons b bs ih => intro pre; simp [expOuts, ih]

theorem outs_length (bases : List String) : (outs bases).length = bases.length := by
  rw [outs_eq_expOuts, expOuts_length]

theorem expOuts_getD (bases : List String) :
    ∀ pre i, i < bases.length →
      (expOuts pre bases).getD i "" = outOf (pre ++ bases.take i) (bases.getD i "") := by
  induction bases with
  | nil => intro pre i h; exact absurd h (by simp)
  | cons b bs ih =>
    intro pre i h
    cases i with
    | zero => simp [expOuts, outOf]
    | succ i =>
      have hi : i < bs.length := by simpa using h
      simp only [expOuts, List.getD_cons_succ, List.take_succ_cons]
      rw [ih (pre ++ [b]) i hi]
      simp [List.append_assoc]

theorem outs_getD (bases : List String) (i : Nat) (h : i < bases.length) :
    (outs bases).getD i "" = outOf (bases.take i) (bases.getD i "") := by
  rw [outs_eq_expOuts, expOuts_getD bases [] i h, List.nil_append]

theorem count_take_lt (l : List String) (b : String) (i j : Nat)
    (hij : i < j) (hj : j ≤ l.length) (hb : l.getD i "" = b) :
    (l.take i).count b < (l.take j).count b := by
  have hi : i < l.length := by omega
  have hgd : l[i] = b := by
    rw [List.getD_eq_getElem?_getD, List.getElem?_eq_getElem hi] at hb
    simpa using hb
  have hsucc : List.take (i + 1) l = List.take i l ++ [b] := by
    rw [List.take_succ, List.getElem?_eq_getElem hi, hgd]
    rfl
  have h1 : List.count b (List.take (i + 1) l)
      = List.count b (List.take i l) + 1 := by
    rw [hsucc, List.count_append]
    simp
  have h2 : List.count b (List.take (i + 1) l)
      = List.count b (List.take (i + 1) (List.take j l)) := by
    rw [List.take_take, Nat.min_eq_left (by omega)]
  have h3 : List.count b (List.take (i + 1) (List.take j l))
      ≤ List.count b (List.take j l) := by
    conv_rhs => rw [← List.take_append_drop (i + 1) (List.take j l)]
    rw [List.count_append]
    omega
  omega

/-! ### Python strip: idempotence facts -/

theorem dropWhile_idem {α : Type} (p : α → Bool) (l : List α) :
    List.dropWhile p (List.dropWhile p l) = List.dropWhile p l := by
  induction l with
  | nil => rfl
  | cons a l ih =>
    by_cases h : p a
    · rw [List.dropWhile_cons_of_pos h]
      exact ih
    · rw [List.dropWhile_cons_of_neg h, List.dropWhile_cons_of_neg h]

theorem dropWhile_length_le {α : Type} (p : α → Bool) (l : List α) :
    (List.dropWhile p l).length ≤ l.length := by
  induction l with
  | nil => exact Nat.le_refl 0
  | cons a l ih =>
    by_cases h : p a
    · rw [List.dropWhile_cons_of_pos h]
      exact Nat.le_succ_of_le ih
    · rw [List.dropWhile_cons_of_neg h]

theorem strip_head_not_ws (c : Char) (m' : List Char)
    (hm : List.dropWhile Char.isWhitespace (c :: m') = c :: m') :
    ¬ (Char.isWhitespace c = true) := by
  intro h
  rw [List.dropWhile_cons_of_pos h] at hm
  have h1 := dropWhile_length_le Char.isWhitespace m'
  rw [hm] at h1
  simp at h1

theorem dropWhile_right_strip (m : List Char)
    (hm : List.dropWhile Char.isWhitespace m = m) :
    List.dropWhile Char.isWhitespace
        ((List.dropWhile Char.isWhitespace m.reverse).reverse)
      = (List.dropWhile Char.isWhitespace m.reverse).reverse := by
  cases m with
  | nil => rfl
  | cons c m' =>
    have hc := strip_head_not_ws c m' hm
    rw [List.reverse_cons, List.dropWhile_append]
    by_cases he : (List.dropWhile Char.isWhitespace m'.reverse).isEmpty = true
    · rw [if_pos he, List.dropWhile_cons_of_neg hc]
      simp [List.dropWhile_cons_of_neg hc]
    · rw [if_neg he, List.reverse_append]
      simp only [List.reverse_cons, List.reverse_nil, List.nil_append,
        List.singleton_append]
      rw [List.dropWhile_cons_of_neg hc]

theorem pyStrip_idem (s : String) : pyStrip (pyStrip s) = pyStrip s := by
  apply str_ext
  show ((((pyStrip s).data.dropWhile Char.isWhitespace).reverse.dropWhile
      Char.isWhitespace).reverse) = (pyStrip s).data
  have hdata : (pyStrip s).data
      = ((s.data.dropWhile Char.isWhitespace).reverse.dropWhile
          Char.isWhitespace).reverse := rfl
  have hm : List.dropWhile Char.isWhitespace
      (List.dropWhile Char.isWhitespace s.data)
      = List.dropWhile Char.isWhitespace s.data := dropWhile_idem _ _
  have h1 : List.dropWhile Char.isWhitespace (pyStrip s).data = (pyStrip s).data := by
    rw [hdata]
    exact dropWhile_right_strip _ hm
  rw [h1, hdata, List.reverse_reverse, dropWhile_idem]

theorem pyStrip_empty : pyStrip "" = "" := rfl

/-! ### Record cleaner

`clean_csv` (inventory.py lines 42-49) on the parsed CSV rows: keep a row iff
some cell has non-whitespace content, strip every cell, keep the first 8
cells.  The later `pd.DataFrame` / `dropna(how='all')` steps neither drop nor
change any of these rows (all values are strings, so never NaN). -/

def rowNonBlank (row : List String) : Bool :=
  row.any (fun c => pyStrip c != "")

def cleanRow (row : List String) : List String :=
  (row.map pyStrip).take 8

def cleanRows (rows : List (List String)) : List (List String) :=
  (rows.filter rowNonBlank).map cleanRow

/-- The normalized entity produced by `read_inventory_csv`; fields in the
column order fixed at inventory.py line 130. -/
structure InventoryRecord where
  slNo : String
  team : String
  deviceModel : String
  serialNumber : String
  macAddress : String
  condition : String
  assignedTo : String
  owner : String
  deriving DecidableEq, Repr

/-- Cell `i` of a CSV data row; a missing cell is NaN in pandas, which
`clean_value` maps to `""`, so it is modelled as `""` directly. -/
def getCell (row : List String) (i : Nat) : String :=
  row.getD i ""

/-- `x if x else default` (inventory.py lines 146-159). -/
def orDefault (v d : String) : String :=
  if v = "" then d else v

/-- One row of `read_inventory_csv` (inventory.py lines 127-159): clean every
cell, then apply the per-field defaults.  `Sl.no` gets no default. -/
def mkRecord (row : List String) : InventoryRecord where
  slNo := clean_value (getCell row 0)
  team := orDefault (clean_value (getCell row 1)) "Inventory"
  deviceModel := orDefault (clean_value (getCell row 2)) "Unknown Device"
  serialNumber := orDefault (clean_value (getCell row 3)) "UNKNOWN"
  macAddress := orDefault (clean_value (getCell row 4)) "UNKNOWN"
  condition := orDefault (clean_value (getCell row 5)) "Unknown"
  assignedTo := orDefault (clean_value (getCell row 6)) "Unassigned"
  owner := orDefault (clean_value (getCell row 7)) "Unassigned"

def recordFields (r : InventoryRecord) : List String :=
  [r.slNo, r.team, r.deviceModel, r.serialNumber, r.macAddress, r.condition,
   r.assignedTo, r.owner]

/-- The final row filter of `read_inventory_csv` (inventory.py line 162):
keep a record iff some field has non-whitespace content. -/
def recordNonBlank (r : InventoryRecord) : Bool :=
  (recordFields r).any (fun f => pyStrip f != "")

/-- `read_inventory_csv` on the rows of the cleaned file: the first row is
consumed as the header, every further row becomes a record. -/
def readRecords (rows : List (List String)) : List InventoryRecord :=
  ((rows.drop 1).map mkRecord).filter recordNonBlank

/-- The record set `main` obtains from a raw CSV: `clean_csv` followed by
`read_inventory_csv` of the cleaned file (inventory.py lines 350-364). -/
def pipeline (rows : List (List String)) : List InventoryRecord :=
  readRecords (cleanRows rows)

/-! ### Sync orchestrator

`create_or_update_host` (inventory.py lines 240-300) with the two remote
calls replaced by an oracle: `group_id` is the result of `get_group_id`
(`none` = lookup and creation both failed, or the call raised — the handler
at lines 203-205 turns exceptions into `None`), `create_ok` is whether
`host.create` succeeded (an exception there is caught at lines 298-300 and
becomes `False`). -/

structure MState where
  counter : Nat
  hostname_counters : AllocSt

/-- `__init__` (inventory.py lines 78-79): counter starts at 1, registry empty. -/
def initState : MState := ⟨1, emptyAlloc⟩

structure RecOracle where
  group_id : Option String
  create_ok : Bool

/-- `host_data['Device model'].replace(' ', '-')` (inventory.py line 245). -/
def replaceSpaces (s : String) : String :=
  ⟨s.data.map (fun c => if c = ' ' then '-' else c)⟩

/-- `''.join(c for c in s if c.isalnum() or c in '-_.')` (line 247). -/
def sanitizeHostname (s : String) : String :=
  ⟨s.data.filter (fun c => c.isAlphanum || c == '-' || c == '_' || c == '.')⟩

/-- The base hostname built at inventory.py lines 245-247. -/
def base_hostname (model ident : String) : String :=
  sanitizeHostname (replaceSpaces model ++ "-" ++ ident)

def create_or_update_host (st : MState) (r : InventoryRecord) (o : RecOracle) :
    Bool × MState :=
  let idp := generate_identifier r.serialNumber r.macAddress st.counter
  let bh := base_hostname r.deviceModel idp.1
  let hp := generate_unique_hostname st.hostname_counters bh
  let st' : MState := ⟨idp.2, hp.2⟩
  match o.group_id with
  | none => (false, st')
  | some _ => (o.create_ok, st')

/-- The state change `create_or_update_host` performs: identifier counter and
hostname registry advance, independent of the remote outcome. -/
def recordStateUpdate (st : MState) (r : InventoryRecord) : MState :=
  let idp := generate_identifier r.serialNumber r.macAddress st.counter
  ⟨idp.2,
   (generate_unique_hostname st.hostname_counters
      (base_hostname r.deviceModel idp.1)).2⟩

/-- The record loop of `main` (inventory.py lines 369-378): returns
(success_count, failed_count, final state). -/
def runAll : MState → List (InventoryRecord × RecOracle) → Nat × Nat × MState
  | st, [] => (0, 0, st)
  | st, x :: rest =>
    let res := create_or_update_host st x.1 x.2
    let q := runAll res.2 rest
    (if res.1 then q.1 + 1 else q.1,
     if res.1 then q.2.1 else q.2.1 + 1,
     q.2.2)

/-! ### Claim theorems -/

theorem orDefault_ne (v d : String) (hd : d ≠ "") : orDefault v d ≠ "" := by
  unfold orDefault
  split
  · exact hd
  · next h => exact h

/-- C1: if the serial is non-empty and not "UNKNOWN", the identifier is
`SN` plus the last 4 characters of the serial — the whole serial when it is
shorter than 4 characters — regardless of the MAC, and the fallback counter
is untouched.  The hypothesis `pyStrip serial = serial` says the serial
carries no surrounding whitespace, which holds for every cleaned record
field; the concrete conjunct is the spec's own example. -/
theorem c1_serial_precedence :
    (∀ serial mac counter, serial ≠ "" → serial ≠ "UNKNOWN" →
        pyStrip serial = serial →
        generate_identifier serial mac counter = ("SN" ++ lastN 4 serial, counter))
    ∧ (∀ s : String, s.data.length ≤ 4 → lastN 4 s = s)
    ∧ generate_identifier "ABC12345" "AA:BB:CC:DD:EE:FF" 1 = ("SN2345", 1) := by
  refine ⟨?_, ?_, by decide⟩
  · intro s m c h1 h2 h3
    rw [generate_identifier, if_pos (show s ≠ "" ∧ s ≠ "UNKNOWN" from ⟨h1, h2⟩), h3]
  · intro s h
    unfold lastN
    have h0 : s.data.length - 4 = 0 := by omega
    rw [h0, List.drop_zero]

theorem c1_serial_precedence_witness :
    generate_identifier "XY" "AA:BB:CC:DD:EE:FF" 5 = ("SN" ++ lastN 4 "XY", 5)
    ∧ "SN" ++ lastN 4 "XY" = "SNXY" :=
  ⟨c1_serial_precedence.1 "XY" "AA:BB:CC:DD:EE:FF" 5 (by decide) (by decide)
    (by decide), by decide⟩

/-- C3 (counterexample): for serial "UNKNOWN" and mac "AA:BB:CC:DD:EE:FF"
the generator does not return "MCEEFF" — the last 4 characters of the
literal MAC string are "E:FF", not "EEFF". -/
theorem c3_mac_example_cex :
    (generate_identifier "UNKNOWN" "AA:BB:CC:DD:EE:FF" 1).1 ≠ "MCEEFF" := by
  decide

/-- C3 (amended): for serial "UNKNOWN" and mac "AA:BB:CC:DD:EE:FF" the
generator returns exactly "MCE:FF" ("MC" plus the last 4 characters of the
literal MAC string), leaving the counter unchanged. -/
theorem c3_mac_example (counter : Nat) :
    generate_identifier "UNKNOWN" "AA:BB:CC:DD:EE:FF" counter
      = ("MCE:FF", counter) := by
  rw [generate_identifier, if_neg (by decide), if_pos (by decide),
    show "MC" ++ lastN 4 (pyStrip "AA:BB:CC:DD:EE:FF") = "MCE:FF" by decide]

/-- C4 (counterexample): a surviving row whose sequence-number cell is empty
produces a record with an empty `Sl.no` field — that column has no default,
so not every one of the 8 fields is non-empty. -/
theorem c4_nonempty_cex :
    pipeline [["Sl.no", "Team", "Device model", "S/N", "MAC ID", "Condition",
               "Assigned to", "Owner"],
              ["", "TeamA", "Router", "SN1", "AA:BB", "Good", "Alice", "Bob"]]
      = [{ slNo := "", team := "TeamA", deviceModel := "Router",
           serialNumber := "SN1", macAddress := "AA:BB", condition := "Good",
           assignedTo := "Alice", owner := "Bob" }]
    ∧ (pipeline [["Sl.no", "Team", "Device model", "S/N", "MAC ID", "Condition",
                  "Assigned to", "Owner"],
                 ["", "TeamA", "Router", "SN1", "AA:BB", "Good", "Alice", "Bob"]]).map
        (fun r => r.slNo) = [""] := by
  exact ⟨by decide, by decide⟩

/-- C4 (amended): for every record that survives cleaning, the seven
defaulted fields (team, deviceModel, serialNumber, macAddress, condition,
assignedTo, owner) are non-empty, and each equals its per-field default when
the cleaned cell was empty; the `Sl.no` field keeps its cleaned cell value
and may be empty. -/
theorem c4_fields_nonempty :
    (∀ (rows : List (List String)) (r : InventoryRecord), r ∈ pipeline rows →
        r.team ≠ "" ∧ r.deviceModel ≠ "" ∧ r.serialNumber ≠ ""
        ∧ r.macAddress ≠ "" ∧ r.condition ≠ "" ∧ r.assignedTo ≠ ""
        ∧ r.owner ≠ "")
    ∧ (∀ row, (mkRecord row).slNo = clean_value (getCell row 0))
    ∧ (∀ row, clean_value (getCell row 1) = "" → (mkRecord row).team = "Inventory")
    ∧ (∀ row, clean_value (getCell row 2) = "" →
        (mkRecord row).deviceModel = "Unknown Device")
    ∧ (∀ row, clean_value (getCell row 3) = "" →
        (mkRecord row).serialNumber = "UNKNOWN")
    ∧ (∀ row, clean_value (getCell row 4) = "" →
        (mkRecord row).macAddress = "UNKNOWN")
    ∧ (∀ row, clean_value (getCell row 5) = "" →
        (mkRecord row).condition = "Unknown")
    ∧ (∀ row, clean_value (getCell row 6) = "" →
        (mkRecord row).assignedTo = "Unassigned")
    ∧ (∀ row, clean_value (getCell row 7) = "" →
        (mkRecord row).owner = "Unassigned") := by
  refine ⟨?_, fun row => rfl, ?_, ?_, ?_, ?_, ?_, ?_, ?_⟩
  · intro rows r hr
    unfold pipeline readRecords at hr
    have hr' := List.mem_of_mem_filter hr
    obtain ⟨row, hrow, hmk⟩ := List.mem_map.mp hr'
    rw [← hmk]
    exact ⟨orDefault_ne _ _ (by decide), orDefault_ne _ _ (by decide),
      orDefault_ne _ _ (by decide), orDefault_ne _ _ (by decide),
      orDefault_ne _ _ (by decide), orDefault_ne _ _ (by decide),
      orDefault_ne _ _ (by decide)⟩
  all_goals intro row h
  all_goals simp [mkRecord, orDefault, h]

theorem c4_fields_nonempty_witness :
    ({ slNo := "1", team := "TeamA", deviceModel := "Router",
       serialNumber := "SN1", macAddress := "AA:BB", condition := "Good",
       assignedTo := "Alice", owner := "Bob" } : InventoryRecord).team ≠ ""
    ∧ ({ slNo := "1", team := "TeamA", deviceModel := "Router",
         serialNumber := "SN1", macAddress := "AA:BB", condition := "Good",
         assignedTo := "Alice", owner := "Bob" } : InventoryRecord).owner ≠ "" := by
  have h := c4_fields_nonempty.1
    [["Sl.no", "Team", "Device model", "S/N", "MAC ID", "Condition",
      "Assigned to", "Owner"],
     ["1", "TeamA", "Router", "SN1", "AA:BB", "Good", "Alice", "Bob"]]
    { slNo := "1", team := "TeamA", deviceModel := "Router",
      serialNumber := "SN1", macAddress := "AA:BB", condition := "Good",
      assignedTo := "Alice", owner := "Bob" } (by decide)
  exact ⟨h.1, h.2.2.2.2.2.2⟩

/-- C5: the n-th allocation request for base `b` in a run returns `b` itself
when n = 1 and `b ++ "-" ++ (n-1)` when n ≥ 2: the registry count appended
is read before being incremented. -/
theorem c5_nth_allocation (bases : List String) (b : String) (i n : Nat)
    (hi : i < bases.length) (hb : bases.getD i "" = b) (hn : 1 ≤ n)
    (hcount : (bases.take i).count b = n - 1) :
    (outs bases).getD i ""
      = if n = 1 then b else b ++ "-" ++ Nat.repr (n - 1) := by
  rw [outs_getD bases i hi, hb, outOf, hcount]
  by_cases h1 : n = 1
  · rw [if_pos (by omega), if_pos h1]
  · rw [if_neg (by omega), if_neg h1]

theorem c5_nth_allocation_witness :
    (outs ["Router-SN1234", "Router-SN1234"]).getD 0 "" = "Router-SN1234"
    ∧ (outs ["Router-SN1234", "Router-SN1234"]).getD 1 "" = "Router-SN1234-1" :=
  ⟨(c5_nth_allocation ["Router-SN1234", "Router-SN1234"] "Router-SN1234" 0 1
      (by decide) (by decide) (by decide) (by decide)).trans (by decide),
   (c5_nth_allocation ["Router-SN1234", "Router-SN1234"] "Router-SN1234" 1 2
      (by decide) (by decide) (by decide) (by decide)).trans (by decide)⟩

/-- C6: when serial and MAC are both absent or "UNKNOWN" the generator
returns `DEV` plus the counter zero-padded to 4 digits and increments the
counter; from the initial state (counter = 1) the first fallback call yields
DEV0001 and the second DEV0002; no call ever decreases the counter; and
distinct (positive) counter values give distinct DEV identifiers. -/
theorem c6_fallback_counter :
    (∀ serial mac counter, (serial = "" ∨ serial = "UNKNOWN") →
        (mac = "" ∨ mac = "UNKNOWN") →
        generate_identifier serial mac counter
          = ("DEV" ++ zfill 4 (Nat.repr counter), counter + 1))
    ∧ generate_identifier "UNKNOWN" "UNKNOWN" initState.counter = ("DEV0001", 2)
    ∧ generate_identifier "UNKNOWN" "UNKNOWN" 2 = ("DEV0002", 3)
    ∧ (∀ serial mac counter, counter ≤ (generate_identifier serial mac counter).2)
    ∧ (∀ c c', 1 ≤ c → 1 ≤ c' → c ≠ c' →
        "DEV" ++ zfill 4 (Nat.repr c) ≠ "DEV" ++ zfill 4 (Nat.repr c')) := by
  refine ⟨?_, by decide, by decide, ?_, fun c c' hc hc' hne => devId_inj c c' hc hc' hne⟩
  · intro s m c hs hm
    rw [generate_identifier, if_neg (by tauto), if_neg (by tauto)]
  · intro s m c
    unfold generate_identifier
    split
    · exact Nat.le_refl c
    · split
      · exact Nat.le_refl c
      · exact Nat.le_succ c

theorem c6_fallback_counter_witness :
    generate_identifier "" "" 7 = ("DEV" ++ zfill 4 (Nat.repr 7), 8)
    ∧ "DEV" ++ zfill 4 (Nat.repr 1) ≠ "DEV" ++ zfill 4 (Nat.repr 2) :=
  ⟨c6_fallback_counter.1 "" "" 7 (Or.inl rfl) (Or.inl rfl),
   c6_fallback_counter.2.2.2.2 1 2 (by decide) (by decide) (by decide)⟩

/-- C7: a raw row whose cells are all empty or whitespace-only is dropped
entirely by the cleaner: removing it from the input changes neither the
cleaned row list (so it is used neither as header nor as data) nor the
final record set. -/
theorem c7_blank_row_dropped (pre post : List (List String)) (row : List String)
    (h : ∀ c ∈ row, pyStrip c = "") :
    cleanRows (pre ++ row :: post) = cleanRows (pre ++ post)
    ∧ pipeline (pre ++ row :: post) = pipeline (pre ++ post) := by
  have hb : ¬ rowNonBlank row = true := by
    rw [rowNonBlank, Bool.not_eq_true, List.any_eq_false]
    intro c hc
    rw [h c hc]
    simp
  have h1 : cleanRows (pre ++ row :: post) = cleanRows (pre ++ post) := by
    unfold cleanRows
    rw [List.filter_append, List.filter_append, List.filter_cons_of_neg hb]
  exact ⟨h1, by unfold pipeline; rw [h1]⟩

theorem c7_blank_row_dropped_witness :
    cleanRows [["x"], [" ", ""], ["y"]] = cleanRows [["x"], ["y"]]
    ∧ pipeline [["x"], [" ", ""], ["y"]] = pipeline [["x"], ["y"]] :=
  c7_blank_row_dropped [["x"]] [["y"]] [" ", ""] (by decide)

/-- A string cannot equal a strictly longer one: `y ++ "-" ++ digits` is at
least two characters longer than `y`. -/
theorem ne_dash_suffix (x y : String) (n : Nat)
    (hx : x.data.length ≤ y.data.length + 1) : x ≠ y ++ "-" ++ Nat.repr n := by
  intro h
  have hlen := congrArg (fun s => s.data.length) h
  simp only [sdata_app, List.length_append, repr_data] at hlen
  have hd : 1 ≤ (natDigs n).length :=
    List.length_pos.mpr (natDigs_ne_nil n)
  have hdash : (['-'] : List Char).length = 1 := rfl
  omega

/-- C2 (counterexample): with base requests X, X, X-1 the allocator returns
X, X-1, X-1 — a duplicate — so hostnames are not pairwise distinct for every
combination of bases: a base that itself ends in "-1" can collide with the
suffixed copy of a duplicated base. -/
theorem c2_unique_cex :
    outs ["X", "X", "X-1"] = ["X", "X-1", "X-1"]
    ∧ ¬ List.Pairwise (fun a b => a ≠ b) (outs ["X", "X", "X-1"]) := by
  constructor
  · decide
  · intro hp
    rw [show outs ["X", "X", "X-1"] = ["X", "X-1", "X-1"] by decide] at hp
    rcases hp with _ | ⟨hh, hp⟩
    rcases hp with _ | ⟨hh2, _⟩
    exact hh2 "X-1" (by simp) rfl

/-- C2 (amended): all hostnames returned within a run are pairwise distinct
provided no requested base hostname is another requested base followed by
`-` and a positive decimal number (collisions like base "X-1" against the
suffixed copy of a duplicated base "X" are the only way two outputs can
coincide). -/
theorem c2_unique_amended (bases : List String)
    (h : ∀ b ∈ bases, ∀ b' ∈ bases, ∀ n : Nat, 1 ≤ n →
        b ≠ b' ++ "-" ++ Nat.repr n) :
    List.Pairwise (fun a b => a ≠ b) (outs bases) := by
  rw [List.pairwise_iff_get]
  intro i j hij heq
  have hlen := outs_length bases
  have hi : i.val < bases.length := hlen ▸ i.isLt
  have hj : j.val < bases.length := hlen ▸ j.isLt
  have hgi : (outs bases).get i = (outs bases).getD i.val "" := by
    rw [List.getD_eq_getElem?_getD, List.getElem?_eq_getElem i.isLt]
    simp
  have hgj : (outs bases).get j = (outs bases).getD j.val "" := by
    rw [List.getD_eq_getElem?_getD, List.getElem?_eq_getElem j.isLt]
    simp
  rw [hgi, hgj, outs_getD bases i.val hi, outs_getD bases j.val hj] at heq
  have hij' : i.val < j.val := hij
  have hmi : bases.getD i.val "" ∈ bases := by
    rw [List.getD_eq_getElem?_getD, List.getElem?_eq_getElem hi]
    exact List.getElem_mem hi
  have hmj : bases.getD j.val "" ∈ bases := by
    rw [List.getD_eq_getElem?_getD, List.getElem?_eq_getElem hj]
    exact List.getElem_mem hj
  unfold outOf at heq
  by_cases ci : (bases.take i.val).count (bases.getD i.val "") = 0 <;>
    by_cases cj : (bases.take j.val).count (bases.getD j.val "") = 0
  · rw [if_pos ci, if_pos cj] at heq
    have hlt := count_take_lt bases (bases.getD j.val "") i.val j.val hij'
      (by omega) heq
    omega
  · rw [if_pos ci, if_neg cj] at heq
    exact h (bases.getD i.val "") hmi (bases.getD j.val "") hmj _ (by omega) heq
  · rw [if_neg ci, if_pos cj] at heq
    exact h (bases.getD j.val "") hmj (bases.getD i.val "") hmi _ (by omega)
      heq.symm
  · rw [if_neg ci, if_neg cj] at heq
    obtain ⟨hb, hc⟩ := string_dash_repr_inj _ _ _ _ heq
    have hlt := count_take_lt bases (bases.getD j.val "") i.val j.val hij'
      (by omega) hb
    rw [hb] at hc
    omega

theorem c2_unique_amended_witness :
    List.Pairwise (fun a b => a ≠ b) (outs ["A", "A", "B"]) := by
  apply c2_unique_amended
  intro b hb b' hb' n hn
  simp only [List.mem_cons, List.not_mem_nil, or_false] at hb hb'
  apply ne_dash_suffix
  rcases hb with rfl | rfl | rfl <;> rcases hb' with rfl | rfl | rfl <;> decide

/-! ### C8: cleaning idempotence -/

theorem rowNonBlank_map_strip (m : List String) :
    rowNonBlank (m.map pyStrip) = rowNonBlank m := by
  unfold rowNonBlank
  rw [List.any_map]
  have hfn : ((fun c => pyStrip c != "") ∘ pyStrip) = (fun c => pyStrip c != "") := by
    funext c
    simp only [Function.comp_apply, pyStrip_idem]
  rw [hfn]

theorem cleanRow_idem (row : List String) : cleanRow (cleanRow row) = cleanRow row := by
  unfold cleanRow
  rw [List.map_take, List.map_map]
  have hfn : (pyStrip ∘ pyStrip) = pyStrip := funext pyStrip_idem
  rw [hfn, List.take_take, Nat.min_self]

/-- The all-default record: what `read_inventory_csv` produces from a row
whose 8 cells are all empty. -/
def blankRec : InventoryRecord where
  slNo := ""
  team := "Inventory"
  deviceModel := "Unknown Device"
  serialNumber := "UNKNOWN"
  macAddress := "UNKNOWN"
  condition := "Unknown"
  assignedTo := "Unassigned"
  owner := "Unassigned"

/-- C8 (counterexample): a row whose only non-blank cell sits beyond the 8th
column survives the first cleaning pass truncated to 8 empty cells — it then
becomes an all-default record — but re-cleaning the cleaned rows drops it,
so cleaning is not a fixed point and the record sets differ. -/
theorem c8_idempotent_cex :
    cleanRows (cleanRows [["Sl.no", "Team", "Device model", "S/N", "MAC ID",
        "Condition", "Assigned to", "Owner"],
        ["", "", "", "", "", "", "", "", "X"]])
      ≠ cleanRows [["Sl.no", "Team", "Device model", "S/N", "MAC ID",
        "Condition", "Assigned to", "Owner"],
        ["", "", "", "", "", "", "", "", "X"]]
    ∧ pipeline [["Sl.no", "Team", "Device model", "S/N", "MAC ID",
        "Condition", "Assigned to", "Owner"],
        ["", "", "", "", "", "", "", "", "X"]] = [blankRec]
    ∧ pipeline (cleanRows [["Sl.no", "Team", "Device model", "S/N", "MAC ID",
        "Condition", "Assigned to", "Owner"],
        ["", "", "", "", "", "", "", "", "X"]]) = [] := by
  exact ⟨by decide, by decide, by decide⟩

/-- C8 (amended): cleaning is idempotent — a second pass changes neither the
cleaned rows nor the record set — for every input in which each row with a
non-blank cell has a non-blank cell among its first 8 cells.  (Without that
proviso a row whose only content lies beyond column 8 is kept, truncated to
8 empty cells, by the first pass and dropped by the second.) -/
theorem c8_idempotent_amended (rows : List (List String))
    (h : ∀ row ∈ rows, rowNonBlank row = true → rowNonBlank (row.take 8) = true) :
    cleanRows (cleanRows rows) = cleanRows rows
    ∧ pipeline (cleanRows rows) = pipeline rows := by
  have hfix : List.filter rowNonBlank (cleanRows rows) = cleanRows rows := by
    rw [List.filter_eq_self]
    intro a ha
    unfold cleanRows at ha
    obtain ⟨row, hrow, hcr⟩ := List.mem_map.mp ha
    have hmem := List.mem_filter.mp hrow
    rw [← hcr]
    unfold cleanRow
    rw [← List.map_take, rowNonBlank_map_strip]
    exact h row hmem.1 hmem.2
  have hmapid : (cleanRows rows).map cleanRow = cleanRows rows := by
    have h2 : (cleanRows rows).map cleanRow = (cleanRows rows).map id := by
      apply List.map_congr_left
      intro a ha
      unfold cleanRows at ha
      obtain ⟨row, hrow, hcr⟩ := List.mem_map.mp ha
      rw [← hcr, cleanRow_idem]
      rfl
    rw [h2, List.map_id]
  have key : cleanRows (cleanRows rows) = cleanRows rows := by
    have step : cleanRows (cleanRows rows)
        = (List.filter rowNonBlank (cleanRows rows)).map cleanRow := rfl
    rw [step, hfix, hmapid]
  exact ⟨key, by unfold pipeline; rw [key]⟩

theorem c8_idempotent_amended_witness :
    cleanRows (cleanRows [[" a ", "b"], ["", "  "], ["c"]])
      = cleanRows [[" a ", "b"], ["", "  "], ["c"]]
    ∧ pipeline (cleanRows [[" a ", "b"], ["", "  "], ["c"]])
      = pipeline [[" a ", "b"], ["", "  "], ["c"]] :=
  c8_idempotent_amended [[" a ", "b"], ["", "  "], ["c"]] (by decide)

/-! ### C9 and C10: orchestrator -/

theorem runAll_cons_fst (st : MState) (x : InventoryRecord × RecOracle)
    (rest : List (InventoryRecord × RecOracle)) :
    (runAll st (x :: rest)).1
      = (if (create_or_update_host st x.1 x.2).1
          then (runAll (create_or_update_host st x.1 x.2).2 rest).1 + 1
          else (runAll (create_or_update_host st x.1 x.2).2 rest).1) := rfl

theorem runAll_cons_snd (st : MState) (x : InventoryRecord × RecOracle)
    (rest : List (InventoryRecord × RecOracle)) :
    (runAll st (x :: rest)).2.1
      = (if (create_or_update_host st x.1 x.2).1
          then (runAll (create_or_update_host st x.1 x.2).2 rest).2.1
          else (runAll (create_or_update_host st x.1 x.2).2 rest).2.1 + 1) := rfl

theorem runAll_cons_state (st : MState) (x : InventoryRecord × RecOracle)
    (rest : List (InventoryRecord × RecOracle)) :
    (runAll st (x :: rest)).2.2
      = (runAll (create_or_update_host st x.1 x.2).2 rest).2.2 := rfl

/-- C9: whatever outcomes the remote calls produce, the record loop touches
every record exactly once — the summary satisfies success + failed = total —
and a run over a concatenation decomposes as the run over the first part
followed by the run over the second from the reached state: no per-record
failure stops the remaining records from being processed. -/
theorem c9_per_record_errors :
    (∀ st items, (runAll st items).1 + (runAll st items).2.1 = items.length)
    ∧ (∀ st i1 i2,
        runAll st (i1 ++ i2)
          = ((runAll st i1).1 + (runAll (runAll st i1).2.2 i2).1,
             (runAll st i1).2.1 + (runAll (runAll st i1).2.2 i2).2.1,
             (runAll (runAll st i1).2.2 i2).2.2)) := by
  constructor
  · intro st items
    induction items generalizing st with
    | nil => rfl
    | cons x rest ih =>
      rw [List.length_cons, runAll_cons_fst, runAll_cons_snd]
      have hh := ih (create_or_update_host st x.1 x.2).2
      by_cases hres : (create_or_update_host st x.1 x.2).1
      · rw [if_pos hres, if_pos hres]
        omega
      · rw [if_neg hres, if_neg hres]
        omega
  · intro st i1 i2
    induction i1 generalizing st with
    | nil =>
      simp only [List.nil_append]
      show runAll st i2
        = ((runAll st []).1 + (runAll (runAll st []).2.2 i2).1,
           (runAll st []).2.1 + (runAll (runAll st []).2.2 i2).2.1,
           (runAll (runAll st []).2.2 i2).2.2)
      simp only [runAll, Nat.zero_add]
    | cons x i1 ih =>
      rw [List.cons_append]
      have hsplit : ∀ (a : Nat × Nat × MState) (b : Nat × Nat × MState),
          a.1 = b.1 → a.2.1 = b.2.1 → a.2.2 = b.2.2 → a = b := by
        intro a b h1 h2 h3
        exact Prod.ext h1 (Prod.ext h2 h3)
      apply hsplit
      · dsimp only
        rw [runAll_cons_fst, runAll_cons_fst, runAll_cons_state, ih]
        dsimp only
        by_cases hres : (create_or_update_host st x.1 x.2).1
        · rw [if_pos hres, if_pos hres]
          omega
        · rw [if_neg hres, if_neg hres]
      · dsimp only
        rw [runAll_cons_snd, runAll_cons_snd, runAll_cons_state, ih]
        dsimp only
        by_cases hres : (create_or_update_host st x.1 x.2).1
        · rw [if_pos hres, if_pos hres]
        · rw [if_neg hres, if_neg hres]
          omega
      · dsimp only
        rw [runAll_cons_state, runAll_cons_state, ih]

/-- The oracle of a record whose group resolution fails (so `host.create` is
never reached and the record is counted as failed). -/
def failOracle : RecOracle where
  group_id := none
  create_ok := false

/-- C10: processing a record advances the fallback counter and the hostname
registry identically for every remote outcome — the state change is exactly
the identifier/hostname allocation and is never rolled back on failure.
Concretely: a record without serial and MAC whose group resolution fails is
reported failed, yet it consumes DEV0001 (the counter moves to 2, so the
next fallback identifier is DEV0002) and it claims the registry slot of its
base hostname (a later record with the same base gets the "-1" suffix). -/
theorem c10_state_consumed :
    (∀ st r o, (create_or_update_host st r o).2 = recordStateUpdate st r)
    ∧ (create_or_update_host initState blankRec failOracle).1 = false
    ∧ (create_or_update_host initState blankRec failOracle).2.counter = 2
    ∧ (generate_identifier "UNKNOWN" "UNKNOWN"
        (create_or_update_host initState blankRec failOracle).2.counter).1
      = "DEV0002"
    ∧ (create_or_update_host initState blankRec failOracle).2.hostname_counters
        (base_hostname "Unknown Device" "DEV0001") = some 1
    ∧ (generate_unique_hostname
        (create_or_update_host initState blankRec failOracle).2.hostname_counters
        (base_hostname "Unknown Device" "DEV0001")).1
      = base_hostname "Unknown Device" "DEV0001" ++ "-1" := by
  refine ⟨?_, by decide, by decide, by decide, by decide, by decide⟩
  intro st r o
  rcases o with ⟨g, ck⟩
  cases g <;> rfl
